import Mathlib

/-!
# ghjwt: the token issuer of `main.go`

A shallow embedding of `src/main.go` (package-level variables, flag parsing and
`main`) together with the functions of the imported packages that `main` calls:
`time.Unix`, `time.Time.Add` with `addSec`, `time.Time.Unix` and, from
`github.com/dgrijalva/jwt-go`, `MapClaims.Valid` with its three verifiers.

Go `int` is taken 64 bits wide. Values of type `int`, `int64` and
`time.Duration` are carried in `Int`; the 64-bit additions of package `time`
reduce their result with `wrap64`, and `addSec` saturates as in Go. The file
system, the PEM key parser, the signing-method registry, the signer and the
clock read by the validator are fields of `Env`.
-/

namespace Ghjwt

/-! ## 64-bit integers -/

/-- The least `int64`. -/
def minInt64 : Int := -9223372036854775808

/-- The greatest `int64`. -/
def maxInt64 : Int := 9223372036854775807

/-- The value an `int64` holds after an addition whose exact result is `x`:
reduction modulo `2^64` into the range of `int64`. -/
def wrap64 (x : Int) : Int :=
  (x + 9223372036854775808) % 18446744073709551616 - 9223372036854775808

/-- The integer is an `int64` value. -/
def isInt64 (x : Int) : Prop := minInt64 ≤ x ∧ x ≤ maxInt64

instance (x : Int) : Decidable (isInt64 x) := by
  unfold isInt64; exact inferInstance

/-! ## Package `time` -/

/-- Nanoseconds in `time.Second`. -/
def Second : Int := 1000000000

/-- Nanoseconds in `time.Minute`. -/
def Minute : Int := 60 * Second

/-- Constant `unixToInternal` of package `time`: the seconds from January 1 of
year 1 to January 1, 1970. -/
def unixToInternal : Int := 62135596800

/-- Constant `internalToUnix` of package `time`. -/
def internalToUnix : Int := -unixToInternal

/-- A `time.Time` wall-clock reading: the value of `t.sec()`, seconds since
January 1 of year 1 held in an `int64`, and the nanoseconds within that second. -/
structure Time where
  sec : Int
  nsec : Int
  deriving DecidableEq, Repr

/-- The seconds of a `time.Time` are an `int64` and its nanosecond field lies in
`[0, 999999999]`. -/
def Time.wellFormed (t : Time) : Prop := isInt64 t.sec ∧ 0 ≤ t.nsec ∧ t.nsec < Second

instance (t : Time) : Decidable t.wellFormed := by
  unfold Time.wellFormed; exact inferInstance

/-- Go `time.Unix(sec, 0)`, as called on line 83 with a zero nanosecond
argument: `unixTime` stores `sec + unixToInternal` in an `int64`. -/
def timeUnix (sec : Int) : Time := ⟨wrap64 (sec + unixToInternal), 0⟩

/-- Go `Time.Unix()`, that is `unixSec()`: `t.sec() + internalToUnix` in `int64`. -/
def Time.Unix (t : Time) : Int := wrap64 (t.sec + internalToUnix)

/-- Go `Time.addSec(d)`: the 64-bit sum is kept when `(sum > t.ext) == (d > 0)`,
and otherwise replaced by `1<<63 - 1` for a positive `d` and by `-(1<<63 - 1)`
for a negative one. The packed wall-seconds branch of a reading with a monotonic
part yields the same seconds. -/
def Time.addSec (t : Time) (d : Int) : Time :=
  let sum := wrap64 (t.sec + d)
  if (sum > t.sec ↔ d > 0) then ⟨sum, t.nsec⟩
  else if d > 0 then ⟨maxInt64, t.nsec⟩
  else ⟨-maxInt64, t.nsec⟩

/-- Go `Time.Add(d)`: `dsec := d / 1e9` and `nsec := t.nsec + d % 1e9` with Go's
truncating division, one carry or borrow, then `addSec(dsec)`. -/
def Time.Add (t : Time) (d : Int) : Time :=
  let dsec := Int.tdiv d Second
  let nsec := t.nsec + Int.tmod d Second
  if nsec ≥ Second then (Time.mk t.sec (nsec - Second)).addSec (dsec + 1)
  else if nsec < 0 then (Time.mk t.sec (nsec + Second)).addSec (dsec - 1)
  else (Time.mk t.sec nsec).addSec dsec

/-- A Unix second that `time.Time` holds without overflow: an `int64` whose
count from year 1, `s + unixToInternal`, is an `int64` too. -/
def representable (s : Int) : Prop := minInt64 ≤ s ∧ s + unixToInternal ≤ maxInt64

instance (s : Int) : Decidable (representable s) := by
  unfold representable; exact inferInstance

/-! ## Package `jwt`: `MapClaims` and its validation -/

/-- The dynamic type of a claim value (`interface{}`), as far as the type
switches of `MapClaims` distinguish it. A `float64` is carried by its `int64`
conversion and a `json.Number` by its `Int64()` result. -/
inductive Value where
  | int (n : Int)
  | float64 (n : Int)
  | jsonNumber (n : Int)
  deriving DecidableEq, Repr

/-- Go `jwt.MapClaims`, a `map[string]interface{}`. -/
structure MapClaims where
  entries : List (String × Value)
  deriving DecidableEq, Repr

/-- Go `make(jwt.MapClaims)`: the empty map. -/
def MapClaims.make : MapClaims := ⟨[]⟩

/-- Map assignment `m[k] = v`. -/
def MapClaims.set (m : MapClaims) (k : String) (v : Value) : MapClaims :=
  ⟨m.entries.filter (fun p => p.1 ≠ k) ++ [(k, v)]⟩

/-- Map lookup `m[k]`. -/
def MapClaims.get (m : MapClaims) (k : String) : Option Value :=
  List.lookup k m.entries

/-- Function `verifyExp` of jwt-go `claims.go`. -/
def verifyExp (exp now : Int) (required : Bool) : Bool :=
  if exp = 0 then !required else decide (now ≤ exp)

/-- Function `verifyIat` of jwt-go `claims.go`. -/
def verifyIat (iat now : Int) (required : Bool) : Bool :=
  if iat = 0 then !required else decide (now ≥ iat)

/-- Function `verifyNbf` of jwt-go `claims.go`. -/
def verifyNbf (nbf now : Int) (required : Bool) : Bool :=
  if nbf = 0 then !required else decide (now ≥ nbf)

/-- Method `MapClaims.VerifyExpiresAt` of jwt-go `map_claims.go`: a type switch
with cases `float64` and `json.Number` only; any other value yields `req == false`. -/
def MapClaims.VerifyExpiresAt (m : MapClaims) (cmp : Int) (req : Bool) : Bool :=
  match m.get "exp" with
  | some (Value.float64 e) => verifyExp e cmp req
  | some (Value.jsonNumber v) => verifyExp v cmp req
  | _ => req == false

/-- Method `MapClaims.VerifyIssuedAt` of jwt-go `map_claims.go`. -/
def MapClaims.VerifyIssuedAt (m : MapClaims) (cmp : Int) (req : Bool) : Bool :=
  match m.get "iat" with
  | some (Value.float64 e) => verifyIat e cmp req
  | some (Value.jsonNumber v) => verifyIat v cmp req
  | _ => req == false

/-- Method `MapClaims.VerifyNotBefore` of jwt-go `map_claims.go`. -/
def MapClaims.VerifyNotBefore (m : MapClaims) (cmp : Int) (req : Bool) : Bool :=
  match m.get "nbf" with
  | some (Value.float64 e) => verifyNbf e cmp req
  | some (Value.jsonNumber v) => verifyNbf v cmp req
  | _ => req == false

/-- Method `MapClaims.Valid` of jwt-go `map_claims.go`, with `now` the value of
`TimeFunc().Unix()`. The result is the error text, `none` for a nil error; each
failing verifier overwrites the inner error of the ones before it. -/
def MapClaims.Valid (m : MapClaims) (now : Int) : Option String :=
  let e1 : Option String :=
    if m.VerifyExpiresAt now false = false then some "Token is expired" else none
  let e2 : Option String :=
    if m.VerifyIssuedAt now false = false then some "Token used before issued" else e1
  if m.VerifyNotBefore now false = false then some "Token is not valid yet" else e2

/-! ## Package-level variables and flags of `main.go` -/

/-- Line 15: `defaultIat = int(now.Unix())`. -/
def defaultIat (now : Time) : Int := now.Unix

/-- Line 17: `defaultDur = 10 * time.Minute`. -/
def defaultDur : Int := 10 * Minute

/-- Line 19: `defaultExp = int(now.Add(defaultDur).Unix())`. -/
def defaultExp (now : Time) : Int := (now.Add defaultDur).Unix

/-- A command line that `flag.Parse()` accepts: for each flag the value given,
or `none` when the flag is absent. -/
structure Args where
  iss : Option Int
  iat : Option Int
  exp : Option Int
  dur : Option Int
  alg : Option String
  pem : Option String
  deriving DecidableEq, Repr

/-- The flag variables `iss`, `iat`, `exp`, `dur`, `alg`, `pemPath` after
`flag.Parse()`. -/
structure Flags where
  iss : Int
  iat : Int
  exp : Int
  dur : Int
  alg : String
  pemPath : String
  deriving DecidableEq, Repr

/-- Lines 25-32: every flag variable holds its registered default unless the
command line gives a value. -/
def parseFlags (now : Time) (a : Args) : Flags :=
  ⟨a.iss.getD 0, a.iat.getD (defaultIat now), a.exp.getD (defaultExp now),
    a.dur.getD defaultDur, a.alg.getD "RS256", a.pem.getD ""⟩

/-! ## The collaborators -/

/-- What `main` calls outside the package: `ioutil.ReadFile`,
`jwt.ParseRSAPrivateKeyFromPEM`, `jwt.GetSigningMethod`, `Token.SignedString`,
and the clock `jwt.TimeFunc().Unix()` read by `MapClaims.Valid`. -/
structure Env (Key Method : Type) where
  readFile : String → Except String (List UInt8)
  parseRSAPrivateKeyFromPEM : List UInt8 → Except String Key
  getSigningMethod : String → Option Method
  signedString : Method → MapClaims → Key → Except String String
  timeFunc : Int

/-- The `os.Exit(1)` statements of `main`, in source order (lines 37, 43, 50,
57, 63, 70, 76, 99, 108). -/
inductive ExitSite where
  | issuer
  | pemPath
  | readFile
  | parseKey
  | algEmpty
  | algUnknown
  | durExp
  | claimsInvalid
  | signing
  deriving DecidableEq, Repr

/-- How a run ends: a diagnostic on standard error followed by `os.Exit(1)`, or
the signed token on standard output. -/
inductive Outcome where
  | exit (site : ExitSite) (stderr : String)
  | printed (stdout : String)
  deriving DecidableEq, Repr

/-- A call made to a collaborator, with its arguments. -/
inductive Call (Key Method : Type) where
  | readFile (path : String)
  | parsePEM (pem : List UInt8)
  | getSigningMethod (alg : String)
  | valid (claims : MapClaims)
  | signedString (method : Method) (claims : MapClaims) (key : Key)
  deriving DecidableEq, Repr

/-- The result of a run: how it ended and the collaborator calls it made, in
order. -/
structure Result (Key Method : Type) where
  outcome : Outcome
  calls : List (Call Key Method)
  deriving DecidableEq, Repr

/-! ## `main` -/

/-- Lines 79-87: the value of `exp` after the recomputation block,
`int(now.Add(dur).Unix())` with `now` replaced by `time.Unix(int64(iat), 0)` for
an `iat` away from its default. -/
def resolveExp (now : Time) (f : Flags) : Int :=
  if f.exp = defaultExp now then
    let now2 := if f.iat ≠ defaultIat now then timeUnix f.iat else now
    (now2.Add f.dur).Unix
  else f.exp

/-- Lines 79-93: the claims map built by `main`, holding Go `int` values. -/
def buildClaims (now : Time) (f : Flags) : MapClaims :=
  ((MapClaims.make.set "iss" (Value.int f.iss)).set "iat" (Value.int f.iat)).set "exp"
    (Value.int (resolveExp now f))

/-- Lines 34-77 of `main`: the checks made before the claims are built. An
error is the finished run; success yields the key file contents, the parsed key
and the signing method. -/
def checks {Key Method : Type} (env : Env Key Method) (now : Time) (f : Flags) :
    Except (Result Key Method) (List UInt8 × Key × Method) :=
  if f.iss = 0 then
    Except.error ⟨Outcome.exit ExitSite.issuer "iss issuer ID is required", []⟩
  else if f.pemPath = "" then
    Except.error ⟨Outcome.exit ExitSite.pemPath "pem path is required", []⟩
  else
    match env.readFile f.pemPath with
    | Except.error e =>
      Except.error ⟨Outcome.exit ExitSite.readFile e, [Call.readFile f.pemPath]⟩
    | Except.ok pem =>
      match env.parseRSAPrivateKeyFromPEM pem with
      | Except.error e =>
        Except.error
          ⟨Outcome.exit ExitSite.parseKey e, [Call.readFile f.pemPath, Call.parsePEM pem]⟩
      | Except.ok pk =>
        if f.alg = "" then
          Except.error
            ⟨Outcome.exit ExitSite.algEmpty "algorithm is required",
              [Call.readFile f.pemPath, Call.parsePEM pem]⟩
        else
          match env.getSigningMethod f.alg with
          | none =>
            Except.error
              ⟨Outcome.exit ExitSite.algUnknown
                ("signing method algorithm specified (" ++ f.alg ++ ") could not be found"),
                [Call.readFile f.pemPath, Call.parsePEM pem, Call.getSigningMethod f.alg]⟩
          | some method =>
            if f.dur ≠ defaultDur ∧ f.exp ≠ defaultExp now then
              Except.error
                ⟨Outcome.exit ExitSite.durExp "either specify -dur or -exp, not both",
                  [Call.readFile f.pemPath, Call.parsePEM pem, Call.getSigningMethod f.alg]⟩
            else
              Except.ok (pem, pk, method)

/-- Lines 79-112 of `main`: build the claims, validate them, sign and print. -/
def issue {Key Method : Type} (env : Env Key Method) (now : Time) (f : Flags)
    (pem : List UInt8) (pk : Key) (method : Method) : Result Key Method :=
  let claims := buildClaims now f
  match claims.Valid env.timeFunc with
  | some e =>
    ⟨Outcome.exit ExitSite.claimsInvalid e,
      [Call.readFile f.pemPath, Call.parsePEM pem, Call.getSigningMethod f.alg,
        Call.valid claims]⟩
  | none =>
    match env.signedString method claims pk with
    | Except.error e =>
      ⟨Outcome.exit ExitSite.signing e,
        [Call.readFile f.pemPath, Call.parsePEM pem, Call.getSigningMethod f.alg,
          Call.valid claims, Call.signedString method claims pk]⟩
    | Except.ok signed =>
      ⟨Outcome.printed signed,
        [Call.readFile f.pemPath, Call.parsePEM pem, Call.getSigningMethod f.alg,
          Call.valid claims, Call.signedString method claims pk]⟩

/-- Function `main` (lines 24-112), run at invocation time `now` on the command
line `args`. -/
def main {Key Method : Type} (env : Env Key Method) (now : Time) (args : Args) :
    Result Key Method :=
  let f := parseFlags now args
  match checks env now f with
  | Except.error r => r
  | Except.ok (pem, pk, method) => issue env now f pem pk method

/-! ## The error taxonomy and check order of the specification -/

/-- Section 7 of the specification: every failure before the signing step is a
`ConfigError`; a failure of the signing step is a `SigningError`. -/
def ExitSite.isConfigError : ExitSite → Bool
  | ExitSite.signing => false
  | _ => true

/-- The four precondition checks of section 4.1 of the specification. -/
inductive Check where
  | issuer
  | key
  | algorithm
  | durationExpiry
  deriving DecidableEq, Repr

/-- The check of section 4.1 to which an exit site belongs, if any. -/
def ExitSite.check : ExitSite → Option Check
  | ExitSite.issuer => some Check.issuer
  | ExitSite.pemPath => some Check.key
  | ExitSite.readFile => some Check.key
  | ExitSite.parseKey => some Check.key
  | ExitSite.algEmpty => some Check.algorithm
  | ExitSite.algUnknown => some Check.algorithm
  | ExitSite.durExp => some Check.durationExpiry
  | ExitSite.claimsInvalid => none
  | ExitSite.signing => none

/-- The check whose error a run reported, if it reported one of the four. -/
def Outcome.reportedCheck : Outcome → Option Check
  | Outcome.exit site _ => site.check
  | Outcome.printed _ => none

/-- Check 2 of section 4.1 holds: the key path is present, the file is readable
and its contents parse as a key. -/
def keyLoadable {Key Method : Type} (env : Env Key Method) (f : Flags) : Bool :=
  if f.pemPath = "" then false
  else
    match env.readFile f.pemPath with
    | Except.error _ => false
    | Except.ok pem => (env.parseRSAPrivateKeyFromPEM pem).toBool

/-- Check 3 of section 4.1 holds: the algorithm name is non-empty and the
registry resolves it. -/
def algResolvable {Key Method : Type} (env : Env Key Method) (f : Flags) : Bool :=
  if f.alg = "" then false else (env.getSigningMethod f.alg).isSome

/-- The first violated check in the order of section 4.1 of the specification:
issuer, key material, algorithm, duration against expiry. -/
def specFirstViolation {Key Method : Type} (env : Env Key Method) (now : Time) (f : Flags) :
    Option Check :=
  if f.iss = 0 then some Check.issuer
  else if keyLoadable env f = false then some Check.key
  else if algResolvable env f = false then some Check.algorithm
  else if f.dur ≠ defaultDur ∧ f.exp ≠ defaultExp now then some Check.durationExpiry
  else none

/-! ## Sample environment -/

/-- A sample environment with validator clock `t`: the file `key.pem` exists and
parses, the registry knows `RS256`, and signing succeeds. -/
def sampleEnv (t : Int) : Env Unit String :=
  ⟨fun path => if path = "key.pem" then Except.ok [45, 45] else Except.error "no such file",
    fun _ => Except.ok (),
    fun alg => if alg = "RS256" then some "RS256" else none,
    fun _ _ _ => Except.ok "header.payload.signature",
    t⟩

/-- A sample invocation time: Unix second 1700003600 plus 250 ms. -/
def sampleNow : Time := ⟨unixToInternal + 1700003600, 250000000⟩

/-- Sample command line: issuer 1234, a five-minute duration and expiry
1700000600 both given. -/
def argsConflict : Args :=
  ⟨some 1234, none, some 1700000600, some (5 * Minute), none, some "key.pem"⟩

/-- Sample command line: no issuer, no key path, an unregistered algorithm, and
both a duration and an expiry. -/
def argsZeroIssuer : Args :=
  ⟨none, none, some 1700000600, some (5 * Minute), some "XS999", none⟩

/-- Sample command line: issuer 1234, no key path, an unregistered algorithm, and
both a duration and an expiry. -/
def argsNoKey : Args :=
  ⟨some 1234, none, some 1700000600, some (5 * Minute), some "XS999", none⟩

/-- Sample command line: issuer 1234, a readable key, an unregistered algorithm. -/
def argsUnknownAlg : Args :=
  ⟨some 1234, none, none, none, some "XS999", some "key.pem"⟩

/-- Sample command line: issuer and key path only. -/
def argsDefaults : Args :=
  ⟨some 1234, none, none, none, none, some "key.pem"⟩

/-- Sample command line: issuer 1234 and issue time 1700000000. -/
def argsScenario : Args :=
  ⟨some 1234, some 1700000000, none, none, some "RS256", some "key.pem"⟩

/-- Sample command line: issue time 1700000000 and an expiry equal to the
default one at `sampleNow`, 1700003600 + 600. -/
def argsDefaultExpGiven : Args :=
  ⟨some 1234, some 1700000000, some 1700004200, none, none, some "key.pem"⟩

/-- Sample command line: a zero duration. -/
def argsZeroDur : Args :=
  ⟨some 1234, none, none, some 0, none, some "key.pem"⟩

/-- Sample command line: issue time 2000 and expiry 1000. -/
def argsInverted : Args :=
  ⟨some 1234, some 2000, some 1000, none, none, some "key.pem"⟩

/-- Sample command line: issue time 1700000000 and a duration of 1.5 s. -/
def argsShortDur : Args :=
  ⟨some 1234, some 1700000000, none, some 1500000000, none, some "key.pem"⟩

/-- Sample command line: the greatest `int64` as issue time. -/
def argsMaxIat : Args :=
  ⟨some 1234, some 9223372036854775807, none, none, none, some "key.pem"⟩

/-- Sample command line: the least `int64` as issue time and a duration of
minus one second. -/
def argsMinIat : Args :=
  ⟨some 1234, some (-9223372036854775808), none, some (-1000000000), none, some "key.pem"⟩

/-! ## Lemmas on `time` -/

/-- Go's truncating quotient and remainder by `1e9`. -/
theorem tdiv_tmod_Second (d : Int) :
    d = Second * Int.tdiv d Second + Int.tmod d Second ∧
      -Second < Int.tmod d Second ∧ Int.tmod d Second < Second ∧
      (0 ≤ d → 0 ≤ Int.tmod d Second) ∧ (d ≤ 0 → Int.tmod d Second ≤ 0) := by
  have hS : (0 : Int) < Second := by decide
  have hsum := Int.tdiv_add_tmod d Second
  rcases le_total 0 d with hd | hd
  · have h1 := Int.tmod_nonneg Second hd
    have h2 := Int.tmod_lt_of_pos d hS
    refine ⟨by omega, by omega, h2, fun _ => h1, fun h => ?_⟩
    have hd0 : d = 0 := by omega
    subst hd0
    decide
  · have hn : (0 : Int) ≤ -d := by omega
    have h1 := Int.tmod_nonneg Second hn
    have h2 := Int.tmod_lt_of_pos (-d) hS
    have hsum2 := Int.tdiv_add_tmod (-d) Second
    rw [Int.neg_tdiv] at hsum2
    have hmul : Second * -(Int.tdiv d Second) = -(Second * Int.tdiv d Second) := by ring
    rw [hmul] at hsum2
    have hr : Int.tmod d Second = -Int.tmod (-d) Second := by omega
    refine ⟨by omega, by omega, by omega, fun h => ?_, fun _ => by omega⟩
    have hd0 : d = 0 := by omega
    subst hd0
    decide

/-- Within the range of `int64` the 64-bit reduction changes nothing. -/
theorem wrap64_of_isInt64 (x : Int) (h : isInt64 x) : wrap64 x = x := by
  unfold isInt64 minInt64 maxInt64 at h
  unfold wrap64
  omega

/-- The result of `addSec` is exact when the exact sum is an `int64`. -/
theorem Time.addSec_sec (t : Time) (d : Int) (h2 : isInt64 (t.sec + d)) :
    (t.addSec d).sec = t.sec + d := by
  have hw := wrap64_of_isInt64 _ h2
  unfold Time.addSec
  simp only [hw]
  have hc : (t.sec + d > t.sec ↔ d > 0) := by constructor <;> intro h <;> omega
  rw [if_pos hc]

/-- The seconds of `t.Add(d)` are those of `t` plus the floor of the nanoseconds
of `t` and `d` in seconds, when that sum is an `int64`. -/
theorem Time.Add_sec (t : Time) (d : Int) (h : t.wellFormed)
    (h2 : isInt64 (t.sec + (t.nsec + d) / 1000000000)) :
    (t.Add d).sec = t.sec + (t.nsec + d) / 1000000000 := by
  obtain ⟨hs, h0, h1⟩ := h
  obtain ⟨e, lo, hi, -, -⟩ := tdiv_tmod_Second d
  unfold Second at h1 e lo hi
  unfold Time.Add Second
  generalize Int.tdiv d 1000000000 = q at *
  generalize Int.tmod d 1000000000 = r at *
  simp only []
  split_ifs with c1 c2
  · have hq : (t.nsec + d) / 1000000000 = q + 1 := by omega
    rw [hq] at h2 ⊢
    exact Time.addSec_sec _ _ h2
  · have hq : (t.nsec + d) / 1000000000 = q - 1 := by omega
    rw [hq] at h2 ⊢
    exact Time.addSec_sec _ _ h2
  · have hq : (t.nsec + d) / 1000000000 = q := by omega
    rw [hq] at h2 ⊢
    exact Time.addSec_sec _ _ h2

/-- A well-formed reading whose Unix second is representable holds that second
plus `unixToInternal`. -/
theorem Time.sec_of_representable (t : Time) (h : t.wellFormed) (hr : representable t.Unix) :
    t.sec = t.Unix + unixToInternal := by
  obtain ⟨hs, -, -⟩ := h
  unfold isInt64 minInt64 maxInt64 at hs
  unfold representable minInt64 maxInt64 at hr
  unfold Time.Unix wrap64 internalToUnix unixToInternal at *
  omega

/-- The Unix second of `t.Add(d)` is that of `t` plus the floor of the
nanoseconds of `t` and `d` in seconds, when both seconds are representable. -/
theorem Time.Add_Unix (t : Time) (d : Int) (h : t.wellFormed) (hr : representable t.Unix)
    (hr2 : representable (t.Unix + (t.nsec + d) / 1000000000)) :
    (t.Add d).Unix = t.Unix + (t.nsec + d) / 1000000000 := by
  have hsec := Time.sec_of_representable t h hr
  have h2 : isInt64 (t.sec + (t.nsec + d) / 1000000000) := by
    unfold representable minInt64 maxInt64 unixToInternal at hr hr2
    unfold unixToInternal at hsec
    unfold isInt64 minInt64 maxInt64
    omega
  have ha := Time.Add_sec t d h h2
  unfold representable minInt64 maxInt64 unixToInternal at hr hr2
  unfold unixToInternal at hsec
  generalize (t.nsec + d) / 1000000000 = q at *
  generalize t.Unix = u at *
  unfold Time.Unix
  rw [ha, hsec]
  unfold wrap64 internalToUnix unixToInternal
  omega

/-- The reading `time.Unix(T, 0)` of a representable second is well formed and
its Unix second is `T`. -/
theorem timeUnix_spec (T : Int) (hT : representable T) :
    (timeUnix T).wellFormed ∧ (timeUnix T).Unix = T ∧ (timeUnix T).nsec = 0 := by
  unfold representable minInt64 maxInt64 unixToInternal at hT
  refine ⟨⟨⟨?_, ?_⟩, ?_, ?_⟩, ?_, ?_⟩
  · show minInt64 ≤ wrap64 (T + unixToInternal)
    unfold wrap64 minInt64 unixToInternal
    omega
  · show wrap64 (T + unixToInternal) ≤ maxInt64
    unfold wrap64 maxInt64 unixToInternal
    omega
  · show (0 : Int) ≤ 0
    omega
  · show (0 : Int) < Second
    decide
  · show wrap64 (wrap64 (T + unixToInternal) + internalToUnix) = T
    unfold wrap64 internalToUnix unixToInternal
    omega
  · rfl

/-- Adding a duration to `time.Unix(T, 0)` moves the Unix second by the floor of
the duration in seconds, when both seconds are representable. -/
theorem timeUnix_Add_Unix (T d : Int) (hT : representable T)
    (hr : representable (T + Int.fdiv d 1000000000)) :
    ((timeUnix T).Add d).Unix = T + Int.fdiv d 1000000000 := by
  obtain ⟨hw, hu, hn⟩ := timeUnix_spec T hT
  rw [Int.fdiv_eq_ediv d (by decide)] at hr ⊢
  have h := Time.Add_Unix (timeUnix T) d hw (by rw [hu]; exact hT)
    (by rw [hu, hn, zero_add]; exact hr)
  rw [h, hu, hn, zero_add]

/-- Adding less than a second to `time.Unix(T, 0)` leaves the Unix second at
`T`, for every `int64` value of `T`. -/
theorem timeUnix_Add_subsecond (T d : Int) (hT : isInt64 T) (h0 : 0 ≤ d) (h1 : d < Second) :
    ((timeUnix T).Add d).Unix = T := by
  have hq : Int.tdiv d Second = 0 := by
    rw [Int.tdiv_eq_ediv h0 (by decide)]
    unfold Second at h1 ⊢
    omega
  have hr : Int.tmod d Second = d := by
    rw [Int.tmod_eq_emod h0 (by decide)]
    unfold Second at h1 ⊢
    omega
  unfold Time.Add
  simp only [hq, hr, timeUnix, zero_add]
  rw [if_neg (by omega), if_neg (by omega)]
  unfold Time.addSec
  simp only [add_zero]
  unfold isInt64 minInt64 maxInt64 at hT
  have hw : wrap64 (wrap64 (T + unixToInternal)) = wrap64 (T + unixToInternal) := by
    unfold wrap64 unixToInternal
    omega
  rw [hw]
  have hc : (wrap64 (T + unixToInternal) > wrap64 (T + unixToInternal) ↔ (0 : Int) > 0) := by
    constructor <;> intro h <;> omega
  rw [if_pos hc]
  unfold Time.Unix wrap64 internalToUnix unixToInternal
  simp only []
  omega

/-- The default expiry is 600 seconds after the second of the invocation, when
both seconds are representable. -/
theorem defaultExp_eq (now : Time) (h : now.wellFormed) (hr : representable (defaultIat now))
    (hr2 : representable (defaultIat now + 600)) : defaultExp now = defaultIat now + 600 := by
  unfold defaultExp
  unfold defaultIat at hr hr2 ⊢
  have hd : defaultDur = 600000000000 := by decide
  have hq : (now.nsec + defaultDur) / 1000000000 = 600 := by
    obtain ⟨-, h0, h1⟩ := h
    unfold Second at h1
    rw [hd]
    omega
  have ha := Time.Add_Unix now defaultDur h hr (by rw [hq]; exact hr2)
  rw [ha, hq]

/-! ## Lemmas on the claims map and its validation -/

/-- The claims map built by `main`, entry by entry. -/
theorem buildClaims_entries (now : Time) (f : Flags) :
    buildClaims now f =
      ⟨[("iss", Value.int f.iss), ("iat", Value.int f.iat),
        ("exp", Value.int (resolveExp now f))]⟩ := by
  simp [buildClaims, MapClaims.set, MapClaims.make]

/-- A claims map whose values are Go `int`s passes `Valid` at every clock: no
case of the type switches applies. -/
theorem Valid_int (i a e t : Int) :
    (MapClaims.mk [("iss", Value.int i), ("iat", Value.int a), ("exp", Value.int e)]).Valid t
      = none := by
  simp [MapClaims.Valid, MapClaims.VerifyExpiresAt, MapClaims.VerifyIssuedAt,
    MapClaims.VerifyNotBefore, MapClaims.get, List.lookup]

/-- The same window held as non-zero `float64` values is rejected at every clock
when the expiry lies before the issue time. -/
theorem Valid_float64_inverted (i a e t : Int) (ha : a ≠ 0) (he : e ≠ 0) (h : e < a) :
    (MapClaims.mk [("iss", Value.float64 i), ("iat", Value.float64 a),
      ("exp", Value.float64 e)]).Valid t ≠ none := by
  simp only [MapClaims.Valid, MapClaims.VerifyExpiresAt, MapClaims.VerifyIssuedAt,
    MapClaims.VerifyNotBefore, MapClaims.get, List.lookup, verifyExp, verifyIat]
  have h1 : ("exp" == "iss") = false := by decide
  have h2 : ("exp" == "iat") = false := by decide
  have h3 : ("iat" == "iss") = false := by decide
  have h4 : ("nbf" == "iss") = false := by decide
  have h5 : ("nbf" == "iat") = false := by decide
  have h6 : ("nbf" == "exp") = false := by decide
  simp only [h1, h2, h3, h4, h5, h6, beq_self_eq_true]
  by_cases h7 : t ≤ e <;> by_cases h8 : t ≥ a <;> simp [ha, he, h7, h8]
  omega

/-! ## Lemmas on `checks`, `issue` and `main` -/

/-- A failed check ends the run at one of the first seven exit sites, the one of
the first violated check, after calls to the key and registry collaborators only. -/
theorem checks_error {Key Method : Type} (env : Env Key Method) (now : Time) (f : Flags)
    (r : Result Key Method) (h : checks env now f = Except.error r) :
    (∃ site msg, r.outcome = Outcome.exit site msg ∧ site.isConfigError = true ∧
      site.check = specFirstViolation env now f ∧ site.check ≠ none) ∧
    (∀ c, Call.valid c ∉ r.calls) ∧ (∀ m c k, Call.signedString m c k ∉ r.calls) := by
  unfold checks at h
  by_cases h1 : f.iss = 0
  · simp only [h1, if_true, Except.error.injEq] at h
    subst h
    simp [ExitSite.isConfigError, ExitSite.check, specFirstViolation, h1]
  by_cases h2 : f.pemPath = ""
  · simp only [h1, h2, if_true, if_false, Except.error.injEq] at h
    subst h
    simp [ExitSite.isConfigError, ExitSite.check, specFirstViolation, keyLoadable, h1, h2]
  simp only [h1, h2, if_false] at h
  cases h3 : env.readFile f.pemPath with
  | error e =>
    simp only [h3, Except.error.injEq] at h
    subst h
    simp [ExitSite.isConfigError, ExitSite.check, specFirstViolation, keyLoadable, h1, h2, h3]
  | ok pem =>
    simp only [h3] at h
    cases h4 : env.parseRSAPrivateKeyFromPEM pem with
    | error e =>
      simp only [h4, Except.error.injEq] at h
      subst h
      simp [ExitSite.isConfigError, ExitSite.check, specFirstViolation, keyLoadable, h1, h2,
        h3, h4, Except.toBool]
    | ok pk =>
      simp only [h4] at h
      by_cases h5 : f.alg = ""
      · simp only [h5, if_true, Except.error.injEq] at h
        subst h
        simp [ExitSite.isConfigError, ExitSite.check, specFirstViolation, keyLoadable,
          algResolvable, h1, h2, h3, h4, h5, Except.toBool]
      simp only [h5, if_false] at h
      cases h6 : env.getSigningMethod f.alg with
      | none =>
        simp only [h6, Except.error.injEq] at h
        subst h
        simp [ExitSite.isConfigError, ExitSite.check, specFirstViolation, keyLoadable,
          algResolvable, h1, h2, h3, h4, h5, h6, Except.toBool]
      | some method =>
        simp only [h6] at h
        by_cases h7 : f.dur ≠ defaultDur ∧ f.exp ≠ defaultExp now
        · rw [if_pos h7] at h
          simp only [Except.error.injEq] at h
          subst h
          simp [ExitSite.isConfigError, ExitSite.check, specFirstViolation, keyLoadable,
            algResolvable, h1, h2, h3, h4, h5, h6, Except.toBool, h7]
        · rw [if_neg h7] at h
          simp at h

/-- Passing the checks means that each of the four held, with the collaborator
results that were obtained on the way. -/
theorem checks_ok {Key Method : Type} (env : Env Key Method) (now : Time) (f : Flags)
    (pem : List UInt8) (pk : Key) (method : Method)
    (h : checks env now f = Except.ok (pem, pk, method)) :
    f.iss ≠ 0 ∧ f.pemPath ≠ "" ∧ env.readFile f.pemPath = Except.ok pem ∧
      env.parseRSAPrivateKeyFromPEM pem = Except.ok pk ∧ f.alg ≠ "" ∧
      env.getSigningMethod f.alg = some method ∧
      ¬ (f.dur ≠ defaultDur ∧ f.exp ≠ defaultExp now) ∧
      specFirstViolation env now f = none := by
  unfold checks at h
  by_cases h1 : f.iss = 0
  · simp [h1] at h
  by_cases h2 : f.pemPath = ""
  · simp [h1, h2] at h
  simp only [h1, h2, if_false] at h
  cases h3 : env.readFile f.pemPath with
  | error e => simp [h3] at h
  | ok pem2 =>
    simp only [h3] at h
    cases h4 : env.parseRSAPrivateKeyFromPEM pem2 with
    | error e => simp [h4] at h
    | ok pk2 =>
      simp only [h4] at h
      by_cases h5 : f.alg = ""
      · simp [h5] at h
      simp only [h5, if_false] at h
      cases h6 : env.getSigningMethod f.alg with
      | none => simp [h6] at h
      | some method2 =>
        simp only [h6] at h
        by_cases h7 : f.dur ≠ defaultDur ∧ f.exp ≠ defaultExp now
        · rw [if_pos h7] at h
          simp at h
        · rw [if_neg h7] at h
          simp only [Except.ok.injEq, Prod.mk.injEq] at h
          obtain ⟨rfl, rfl, rfl⟩ := h
          refine ⟨h1, h2, rfl, h4, h5, rfl, h7, ?_⟩
          simp [specFirstViolation, keyLoadable, algResolvable, h1, h2, h3, h4, h5, h6,
            Except.toBool]
          simpa using h7

/-- The checks pass as soon as each of the four holds. -/
theorem checks_pass {Key Method : Type} (env : Env Key Method) (now : Time) (f : Flags)
    (pem : List UInt8) (pk : Key) (method : Method)
    (h1 : f.iss ≠ 0) (h2 : f.pemPath ≠ "") (h3 : env.readFile f.pemPath = Except.ok pem)
    (h4 : env.parseRSAPrivateKeyFromPEM pem = Except.ok pk) (h5 : f.alg ≠ "")
    (h6 : env.getSigningMethod f.alg = some method)
    (h7 : ¬ (f.dur ≠ defaultDur ∧ f.exp ≠ defaultExp now)) :
    checks env now f = Except.ok (pem, pk, method) := by
  unfold checks
  simp only [h1, h2, h3, h4, h5, h6, h7, if_false]

/-- Every run of `issue` validates the claims built by `main`; it hands them to
the signer only when `Valid` returned no error. -/
theorem issue_calls {Key Method : Type} (env : Env Key Method) (now : Time) (f : Flags)
    (pem : List UInt8) (pk : Key) (method : Method) :
    Call.valid (buildClaims now f) ∈ (issue env now f pem pk method).calls ∧
    (∀ c, Call.valid c ∈ (issue env now f pem pk method).calls → c = buildClaims now f) ∧
    (∀ m c k, Call.signedString m c k ∈ (issue env now f pem pk method).calls →
      c = buildClaims now f ∧ c.Valid env.timeFunc = none) ∧
    (∀ msg, (issue env now f pem pk method).outcome = Outcome.printed msg →
      Call.signedString method (buildClaims now f) pk ∈ (issue env now f pem pk method).calls) := by
  unfold issue
  cases hv : (buildClaims now f).Valid env.timeFunc with
  | some e => simp [hv]
  | none =>
    cases hs : env.signedString method (buildClaims now f) pk with
    | error e =>
      simp only [hv, hs]
      refine ⟨by simp, by simp, ?_, by simp⟩
      intro m c k hm
      simp at hm
      obtain ⟨-, rfl, -⟩ := hm
      exact ⟨rfl, hv⟩
    | ok signed =>
      simp only [hv, hs]
      refine ⟨by simp, by simp, ?_, by simp⟩
      intro m c k hm
      simp at hm
      obtain ⟨-, rfl, -⟩ := hm
      exact ⟨rfl, hv⟩

/-- A run whose checks fail is the failed check. -/
theorem main_of_checks_error {Key Method : Type} (env : Env Key Method) (now : Time)
    (args : Args) (r : Result Key Method)
    (h : checks env now (parseFlags now args) = Except.error r) : main env now args = r := by
  simp only [main, h]

/-- A run whose checks pass is the run of `issue`. -/
theorem main_of_checks_ok {Key Method : Type} (env : Env Key Method) (now : Time)
    (args : Args) (pem : List UInt8) (pk : Key) (method : Method)
    (h : checks env now (parseFlags now args) = Except.ok (pem, pk, method)) :
    main env now args = issue env now (parseFlags now args) pem pk method := by
  simp only [main, h]

/-- The only claims a run validates are the ones built from its flags. -/
theorem main_valid_call {Key Method : Type} (env : Env Key Method) (now : Time) (args : Args)
    (c : MapClaims) (h : Call.valid c ∈ (main env now args).calls) :
    c = buildClaims now (parseFlags now args) := by
  cases hc : checks env now (parseFlags now args) with
  | error r =>
    rw [main_of_checks_error env now args r hc] at h
    exact absurd h ((checks_error env now _ r hc).2.1 c)
  | ok v =>
    obtain ⟨pem, pk, method⟩ := v
    rw [main_of_checks_ok env now args pem pk method hc] at h
    exact (issue_calls env now _ pem pk method).2.1 c h

/-- The only claims a run hands to the signer are the ones built from its
flags, after the checks passed and `Valid` returned no error. -/
theorem main_signed_call {Key Method : Type} (env : Env Key Method) (now : Time) (args : Args)
    (m : Method) (c : MapClaims) (k : Key)
    (h : Call.signedString m c k ∈ (main env now args).calls) :
    c = buildClaims now (parseFlags now args) ∧ c.Valid env.timeFunc = none ∧
      ∃ pem pk method, checks env now (parseFlags now args) = Except.ok (pem, pk, method) := by
  cases hc : checks env now (parseFlags now args) with
  | error r =>
    rw [main_of_checks_error env now args r hc] at h
    exact absurd h ((checks_error env now _ r hc).2.2 m c k)
  | ok v =>
    obtain ⟨pem, pk, method⟩ := v
    rw [main_of_checks_ok env now args pem pk method hc] at h
    obtain ⟨h1, h2⟩ := (issue_calls env now _ pem pk method).2.2.1 m c k h
    exact ⟨h1, h2, pem, pk, method, rfl⟩

/-- The exit after `claims.Valid()` (line 99) is never taken: the claims built
by `main` hold Go `int` values. -/
theorem issue_never_claimsInvalid {Key Method : Type} (env : Env Key Method) (now : Time)
    (f : Flags) (pem : List UInt8) (pk : Key) (method : Method) (msg : String) :
    (issue env now f pem pk method).outcome ≠ Outcome.exit ExitSite.claimsInvalid msg := by
  unfold issue
  have hv : (buildClaims now f).Valid env.timeFunc = none := by
    rw [buildClaims_entries]; exact Valid_int _ _ _ _
  cases hs : env.signedString method (buildClaims now f) pk with
  | error e => simp [hv, hs]
  | ok signed => simp [hv, hs]

/-- A run of `issue` reports none of the four precondition checks. -/
theorem issue_reportedCheck {Key Method : Type} (env : Env Key Method) (now : Time)
    (f : Flags) (pem : List UInt8) (pk : Key) (method : Method) :
    (issue env now f pem pk method).outcome.reportedCheck = none := by
  unfold issue
  cases hv : (buildClaims now f).Valid env.timeFunc with
  | some e => simp [hv, Outcome.reportedCheck, ExitSite.check]
  | none =>
    cases hs : env.signedString method (buildClaims now f) pk with
    | error e => simp [hv, hs, Outcome.reportedCheck, ExitSite.check]
    | ok signed => simp [hv, hs, Outcome.reportedCheck]

/-- The value of `exp` when the flag holds its default: the reference time is
`time.Unix(iat, 0)` for an `iat` away from its default and the invocation time
otherwise, and the duration is added to it. -/
theorem resolveExp_default (now : Time) (f : Flags) (h : f.exp = defaultExp now) :
    resolveExp now f =
      if f.iat ≠ defaultIat now then ((timeUnix f.iat).Add f.dur).Unix
      else ((now.Add f.dur).Unix) := by
  unfold resolveExp
  rw [if_pos h]
  by_cases hi : f.iat ≠ defaultIat now
  · rw [if_pos hi, if_pos hi]
  · rw [if_neg hi, if_neg hi]

/-- The value of `exp` when the flag is away from its default: the flag. -/
theorem resolveExp_explicit (now : Time) (f : Flags) (h : f.exp ≠ defaultExp now) :
    resolveExp now f = f.exp := by
  unfold resolveExp
  rw [if_neg h]

/-- Lookup of `iat` in a three-entry claims map. -/
theorem claims_get_iat (a b c : Value) :
    (MapClaims.mk [("iss", a), ("iat", b), ("exp", c)]).get "iat" = some b := by
  have h1 : ("iat" == "iss") = false := by decide
  simp [MapClaims.get, List.lookup, h1]

/-- Lookup of `exp` in a three-entry claims map. -/
theorem claims_get_exp (a b c : Value) :
    (MapClaims.mk [("iss", a), ("iat", b), ("exp", c)]).get "exp" = some c := by
  have h1 : ("exp" == "iss") = false := by decide
  have h2 : ("exp" == "iat") = false := by decide
  simp [MapClaims.get, List.lookup, h1, h2]

/-- No run ends at the exit after `claims.Valid()`. -/
theorem main_never_claimsInvalid {Key Method : Type} (env : Env Key Method) (now : Time)
    (args : Args) (msg : String) :
    (main env now args).outcome ≠ Outcome.exit ExitSite.claimsInvalid msg := by
  cases hc : checks env now (parseFlags now args) with
  | error r =>
    rw [main_of_checks_error env now args r hc]
    obtain ⟨⟨site, m, h1, -, -, h4⟩, -, -⟩ := checks_error env now _ r hc
    rw [h1]
    intro h
    simp only [Outcome.exit.injEq] at h
    rw [h.1] at h4
    exact h4 rfl
  | ok v =>
    obtain ⟨pem, pk, method⟩ := v
    rw [main_of_checks_ok env now args pem pk method hc]
    exact issue_never_claimsInvalid env now _ pem pk method msg

/-! ## The claims -/

/-- C1: mutual exclusion. Every run in which `dur` differs from its default and
`exp` differs from its default ends in an exit with a configuration error; it
validates no claims and hands nothing to the signer, whatever the issuer, issue
time, algorithm and key. -/
theorem mutual_exclusion {Key Method : Type} (env : Env Key Method) (now : Time) (args : Args)
    (hdur : (parseFlags now args).dur ≠ defaultDur)
    (hexp : (parseFlags now args).exp ≠ defaultExp now) :
    (∃ site msg, (main env now args).outcome = Outcome.exit site msg ∧
      site.isConfigError = true) ∧
    (∀ c, Call.valid c ∉ (main env now args).calls) ∧
    (∀ m c k, Call.signedString m c k ∉ (main env now args).calls) := by
  cases hc : checks env now (parseFlags now args) with
  | error r =>
    rw [main_of_checks_error env now args r hc]
    obtain ⟨⟨site, msg, h1, h2, -, -⟩, h3, h4⟩ := checks_error env now _ r hc
    exact ⟨⟨site, msg, h1, h2⟩, h3, h4⟩
  | ok v =>
    obtain ⟨pem, pk, method⟩ := v
    exact absurd ⟨hdur, hexp⟩ (checks_ok env now _ pem pk method hc).2.2.2.2.2.2.1

/-- C1, witness: issuer 1234, duration 5m and expiry 1700000600. -/
theorem mutual_exclusion_witness :
    (parseFlags sampleNow argsConflict).dur ≠ defaultDur ∧
    (parseFlags sampleNow argsConflict).exp ≠ defaultExp sampleNow ∧
    ((∃ site msg, (main (sampleEnv 1700003600) sampleNow argsConflict).outcome
        = Outcome.exit site msg ∧ site.isConfigError = true) ∧
      (∀ c, Call.valid c ∉ (main (sampleEnv 1700003600) sampleNow argsConflict).calls) ∧
      (∀ m c k,
        Call.signedString m c k ∉ (main (sampleEnv 1700003600) sampleNow argsConflict).calls)) :=
  ⟨by decide, by decide,
    mutual_exclusion (sampleEnv 1700003600) sampleNow argsConflict (by decide) (by decide)⟩

/-- C5: a zero issuer is rejected first. Every run with `iss == 0` ends at the
issuer exit with the issuer diagnostic and has called no collaborator: neither
the key file, the key parser nor the registry was consulted. -/
theorem zero_issuer_rejected_first {Key Method : Type} (env : Env Key Method) (now : Time)
    (args : Args) (hiss : (parseFlags now args).iss = 0) :
    main env now args = ⟨Outcome.exit ExitSite.issuer "iss issuer ID is required", []⟩ := by
  simp only [main, checks, hiss, if_true]

/-- C5, witness: no issuer, no key path, an unregistered algorithm and a
conflicting duration and expiry still report the issuer. -/
theorem zero_issuer_rejected_first_witness :
    (parseFlags sampleNow argsZeroIssuer).iss = 0 ∧
    main (sampleEnv 1700003600) sampleNow argsZeroIssuer
      = ⟨Outcome.exit ExitSite.issuer "iss issuer ID is required", []⟩ :=
  ⟨by decide, zero_issuer_rejected_first (sampleEnv 1700003600) sampleNow argsZeroIssuer
    (by decide)⟩

/-- C6: an unknown algorithm is rejected. With a non-zero issuer and a key that
loads, an empty algorithm name or one the registry does not resolve ends the run
at one of the two algorithm exits, a configuration error; no claims are
validated and nothing is handed to the signer, whatever `iat`, `exp` and `dur`. -/
theorem unknown_algorithm_rejected {Key Method : Type} (env : Env Key Method) (now : Time)
    (args : Args) (pem : List UInt8) (pk : Key)
    (hiss : (parseFlags now args).iss ≠ 0)
    (hpath : (parseFlags now args).pemPath ≠ "")
    (hread : env.readFile (parseFlags now args).pemPath = Except.ok pem)
    (hkey : env.parseRSAPrivateKeyFromPEM pem = Except.ok pk)
    (halg : (parseFlags now args).alg = "" ∨
      env.getSigningMethod (parseFlags now args).alg = none) :
    (∃ site msg, (main env now args).outcome = Outcome.exit site msg ∧
      (site = ExitSite.algEmpty ∨ site = ExitSite.algUnknown) ∧
      site.isConfigError = true) ∧
    (∀ c, Call.valid c ∉ (main env now args).calls) ∧
    (∀ m c k, Call.signedString m c k ∉ (main env now args).calls) := by
  by_cases h5 : (parseFlags now args).alg = ""
  · have hm : main env now args = ⟨Outcome.exit ExitSite.algEmpty "algorithm is required",
        [Call.readFile (parseFlags now args).pemPath, Call.parsePEM pem]⟩ := by
      simp only [main, checks, hiss, hpath, hread, hkey, h5, if_true, if_false]
    rw [hm]
    simp [ExitSite.isConfigError]
  · have h6 : env.getSigningMethod (parseFlags now args).alg = none := by
      rcases halg with h | h
      · exact absurd h h5
      · exact h
    have hm : main env now args = ⟨Outcome.exit ExitSite.algUnknown
        ("signing method algorithm specified (" ++ (parseFlags now args).alg
          ++ ") could not be found"),
        [Call.readFile (parseFlags now args).pemPath, Call.parsePEM pem,
          Call.getSigningMethod (parseFlags now args).alg]⟩ := by
      simp only [main, checks, hiss, hpath, hread, hkey, h5, h6, if_false]
    rw [hm]
    simp [ExitSite.isConfigError]

/-- C6, witness: issuer 1234, the key of `key.pem`, algorithm `XS999`. -/
theorem unknown_algorithm_rejected_witness :
    (parseFlags sampleNow argsUnknownAlg).iss ≠ 0 ∧
    (sampleEnv 1700003600).getSigningMethod (parseFlags sampleNow argsUnknownAlg).alg = none ∧
    ((∃ site msg, (main (sampleEnv 1700003600) sampleNow argsUnknownAlg).outcome
        = Outcome.exit site msg ∧
        (site = ExitSite.algEmpty ∨ site = ExitSite.algUnknown) ∧
        site.isConfigError = true) ∧
      (∀ c, Call.valid c ∉ (main (sampleEnv 1700003600) sampleNow argsUnknownAlg).calls) ∧
      (∀ m c k, Call.signedString m c k
        ∉ (main (sampleEnv 1700003600) sampleNow argsUnknownAlg).calls)) :=
  ⟨by decide, by decide,
    unknown_algorithm_rejected (sampleEnv 1700003600) sampleNow argsUnknownAlg [45, 45] ()
      (by decide) (by decide) rfl rfl (Or.inr (by decide))⟩

/-- C7: fail-fast order. For every input, the check whose error the run reports
is the first violated one in the order issuer, key material, algorithm, duration
against expiry; when none of the four is violated the run reports none of them. -/
theorem fail_fast_order {Key Method : Type} (env : Env Key Method) (now : Time)
    (args : Args) :
    (main env now args).outcome.reportedCheck
      = specFirstViolation env now (parseFlags now args) := by
  cases hc : checks env now (parseFlags now args) with
  | error r =>
    rw [main_of_checks_error env now args r hc]
    obtain ⟨⟨site, msg, h1, -, h3, -⟩, -, -⟩ := checks_error env now _ r hc
    rw [h1]
    exact h3
  | ok v =>
    obtain ⟨pem, pk, method⟩ := v
    rw [main_of_checks_ok env now args pem pk method hc, issue_reportedCheck]
    exact ((checks_ok env now _ pem pk method hc).2.2.2.2.2.2.2).symm

/-- An instance of the order: a non-zero issuer with no key path, an
unregistered algorithm and a conflicting duration and expiry reports the key
path, before any collaborator is called. -/
theorem fail_fast_order_example :
    main (sampleEnv 1700003600) sampleNow argsNoKey
      = ⟨Outcome.exit ExitSite.pemPath "pem path is required", []⟩ ∧
    specFirstViolation (sampleEnv 1700003600) sampleNow (parseFlags sampleNow argsNoKey)
      = some Check.key :=
  ⟨rfl, rfl⟩

/-- C3, counterexample: with the greatest `int64` as issue time and `dur` and
`exp` at their defaults, the claims built hold `iat = 9223372036854775807` and
`exp = -9223372036854775209`, whose difference is not 600. -/
theorem default_duration_law_overflow :
    (parseFlags sampleNow argsMaxIat).dur = defaultDur ∧
    (parseFlags sampleNow argsMaxIat).exp = defaultExp sampleNow ∧
    (buildClaims sampleNow (parseFlags sampleNow argsMaxIat)).get "iat"
      = some (Value.int 9223372036854775807) ∧
    (buildClaims sampleNow (parseFlags sampleNow argsMaxIat)).get "exp"
      = some (Value.int (-9223372036854775209)) ∧
    (-9223372036854775209 : Int) - 9223372036854775807 ≠ 600 :=
  ⟨by decide, by decide, by decide, by decide, by decide⟩

/-- C3, amended: default duration law. For every invocation time, with any
nanosecond part, and every `iat` such that `iat` and `iat + 600` are Unix
seconds that `time.Time` holds without overflow, when `dur` and `exp` hold their
defaults the claims map built by `main` has integer `iat` and `exp` entries with
`exp - iat = 600`. -/
theorem default_duration_law (now : Time) (args : Args) (hnow : now.wellFormed)
    (hdur : (parseFlags now args).dur = defaultDur)
    (hexp : (parseFlags now args).exp = defaultExp now)
    (hr : representable (parseFlags now args).iat)
    (hr2 : representable ((parseFlags now args).iat + 600)) :
    ∃ i e, (buildClaims now (parseFlags now args)).get "iat" = some (Value.int i) ∧
      (buildClaims now (parseFlags now args)).get "exp" = some (Value.int e) ∧
      e - i = 600 := by
  refine ⟨(parseFlags now args).iat, resolveExp now (parseFlags now args), ?_, ?_, ?_⟩
  · rw [buildClaims_entries]; exact claims_get_iat _ _ _
  · rw [buildClaims_entries]; exact claims_get_exp _ _ _
  · rw [resolveExp_default now _ hexp, hdur]
    have h600 : Int.fdiv defaultDur 1000000000 = 600 := by decide
    by_cases hi : (parseFlags now args).iat ≠ defaultIat now
    · rw [if_pos hi, timeUnix_Add_Unix _ _ hr (by rw [h600]; exact hr2), h600]
      omega
    · rw [if_neg hi]
      have hi2 : (parseFlags now args).iat = defaultIat now := not_not.mp hi
      rw [hi2] at hr hr2 ⊢
      have hd := defaultExp_eq now hnow hr hr2
      unfold defaultExp at hd
      rw [hd]
      omega

/-- C3, witness: issuer and key path only, invoked 250 ms into a second. -/
theorem default_duration_law_witness :
    sampleNow.wellFormed ∧ (parseFlags sampleNow argsDefaults).dur = defaultDur ∧
    (parseFlags sampleNow argsDefaults).exp = defaultExp sampleNow ∧
    representable (parseFlags sampleNow argsDefaults).iat ∧
    representable ((parseFlags sampleNow argsDefaults).iat + 600) ∧
    ∃ i e, (buildClaims sampleNow (parseFlags sampleNow argsDefaults)).get "iat"
        = some (Value.int i) ∧
      (buildClaims sampleNow (parseFlags sampleNow argsDefaults)).get "exp"
        = some (Value.int e) ∧
      e - i = 600 :=
  ⟨by decide, by decide, by decide, by decide, by decide,
    default_duration_law sampleNow argsDefaults (by decide) (by decide) (by decide) (by decide)
      (by decide)⟩

/-- C4, counterexample: issuer 1234 with the greatest `int64` given as issue
time, default duration and no expiry: the run validates and signs
`exp = -9223372036854775209`, which is not `iat + 600`. -/
theorem explicit_issuedAt_overflow :
    argsMaxIat.iat = some 9223372036854775807 ∧ argsMaxIat.exp = none ∧
    (parseFlags sampleNow argsMaxIat).dur = defaultDur ∧
    main (sampleEnv 1700003600) sampleNow argsMaxIat
      = ⟨Outcome.printed "header.payload.signature",
          [Call.readFile "key.pem", Call.parsePEM [45, 45], Call.getSigningMethod "RS256",
            Call.valid ⟨[("iss", Value.int 1234), ("iat", Value.int 9223372036854775807),
              ("exp", Value.int (-9223372036854775209))]⟩,
            Call.signedString "RS256"
              ⟨[("iss", Value.int 1234), ("iat", Value.int 9223372036854775807),
                ("exp", Value.int (-9223372036854775209))]⟩ ()]⟩ ∧
    (-9223372036854775209 : Int) ≠ 9223372036854775807 + 600 :=
  ⟨rfl, rfl, by decide, rfl, by decide⟩

/-- C4, amended: explicit issue time propagation. For every non-zero issuer and
every timestamp `T` given as `iat` such that `T` and `T + 600` are Unix seconds
that `time.Time` holds without overflow, with `dur` at its default and `exp` not
given, the claims map is exactly `iss`, `iat = T`, `exp = T + 600`; with a key
that loads and a registered algorithm the run validates this map and hands it to
the signer. -/
theorem explicit_issuedAt_propagation {Key Method : Type} (env : Env Key Method) (now : Time)
    (args : Args) (T : Int) (pem : List UInt8) (pk : Key) (method : Method)
    (hnow : now.wellFormed)
    (hiss : (parseFlags now args).iss ≠ 0)
    (hiat : args.iat = some T)
    (hr : representable T) (hr2 : representable (T + 600))
    (hdur : (parseFlags now args).dur = defaultDur)
    (hexp : args.exp = none)
    (hpath : (parseFlags now args).pemPath ≠ "")
    (hread : env.readFile (parseFlags now args).pemPath = Except.ok pem)
    (hkey : env.parseRSAPrivateKeyFromPEM pem = Except.ok pk)
    (halg : (parseFlags now args).alg ≠ "")
    (hmethod : env.getSigningMethod (parseFlags now args).alg = some method) :
    buildClaims now (parseFlags now args)
      = ⟨[("iss", Value.int (parseFlags now args).iss), ("iat", Value.int T),
          ("exp", Value.int (T + 600))]⟩ ∧
    (main env now args).calls
      = [Call.readFile (parseFlags now args).pemPath, Call.parsePEM pem,
          Call.getSigningMethod (parseFlags now args).alg,
          Call.valid ⟨[("iss", Value.int (parseFlags now args).iss), ("iat", Value.int T),
            ("exp", Value.int (T + 600))]⟩,
          Call.signedString method
            ⟨[("iss", Value.int (parseFlags now args).iss), ("iat", Value.int T),
              ("exp", Value.int (T + 600))]⟩ pk] := by
  have hT : (parseFlags now args).iat = T := by simp [parseFlags, hiat]
  have hE : (parseFlags now args).exp = defaultExp now := by simp [parseFlags, hexp]
  have h600 : Int.fdiv defaultDur 1000000000 = 600 := by decide
  have hres : resolveExp now (parseFlags now args) = T + 600 := by
    rw [resolveExp_default now _ hE, hdur, hT]
    by_cases hi : T ≠ defaultIat now
    · rw [if_pos hi, timeUnix_Add_Unix _ _ hr (by rw [h600]; exact hr2), h600]
    · rw [if_neg hi]
      have hi2 : T = defaultIat now := not_not.mp hi
      rw [hi2] at hr hr2 ⊢
      have hd := defaultExp_eq now hnow hr hr2
      unfold defaultExp at hd
      exact hd
  have hb : buildClaims now (parseFlags now args)
      = ⟨[("iss", Value.int (parseFlags now args).iss), ("iat", Value.int T),
          ("exp", Value.int (T + 600))]⟩ := by
    rw [buildClaims_entries, hres, hT]
  refine ⟨hb, ?_⟩
  have hc := checks_pass env now (parseFlags now args) pem pk method hiss hpath hread hkey halg
    hmethod (fun h => h.2 hE)
  rw [main_of_checks_ok env now args pem pk method hc]
  unfold issue
  simp only [hb, Valid_int]
  cases hs : env.signedString method
      ⟨[("iss", Value.int (parseFlags now args).iss), ("iat", Value.int T),
        ("exp", Value.int (T + 600))]⟩ pk with
  | error e => rfl
  | ok signed => rfl

/-- C4, witness: issuer 1234 and issue time 1700000000 give the claims
`iss = 1234`, `iat = 1700000000`, `exp = 1700000600`. -/
theorem explicit_issuedAt_propagation_witness :
    sampleNow.wellFormed ∧ argsScenario.iat = some 1700000000 ∧
    representable 1700000000 ∧ representable (1700000000 + 600) ∧
    buildClaims sampleNow (parseFlags sampleNow argsScenario)
      = ⟨[("iss", Value.int 1234), ("iat", Value.int 1700000000),
          ("exp", Value.int (1700000000 + 600))]⟩ ∧
    (main (sampleEnv 1700003600) sampleNow argsScenario).calls
      = [Call.readFile "key.pem", Call.parsePEM [45, 45], Call.getSigningMethod "RS256",
          Call.valid ⟨[("iss", Value.int 1234), ("iat", Value.int 1700000000),
            ("exp", Value.int (1700000000 + 600))]⟩,
          Call.signedString "RS256"
            ⟨[("iss", Value.int 1234), ("iat", Value.int 1700000000),
              ("exp", Value.int (1700000000 + 600))]⟩ ()] :=
  ⟨by decide, rfl, by decide, by decide,
    explicit_issuedAt_propagation (sampleEnv 1700003600) sampleNow argsScenario 1700000000
      [45, 45] () "RS256" (by decide) (by decide) rfl (by decide) (by decide) (by decide) rfl
      (by decide) rfl rfl (by decide) rfl⟩

/-- C10, counterexample: with the least `int64` given as issue time and a
duration of minus one second, `exp` at its default, the claims built hold
`exp = 9223372036854775807`, not `iat` plus the floor of `dur / 10^9`. -/
theorem duration_whole_seconds_overflow :
    (parseFlags sampleNow argsMinIat).iat = -9223372036854775808 ∧
    (parseFlags sampleNow argsMinIat).dur = -1000000000 ∧
    (parseFlags sampleNow argsMinIat).iat ≠ defaultIat sampleNow ∧
    (parseFlags sampleNow argsMinIat).exp = defaultExp sampleNow ∧
    (buildClaims sampleNow (parseFlags sampleNow argsMinIat)).get "exp"
      = some (Value.int 9223372036854775807) ∧
    (9223372036854775807 : Int)
      ≠ -9223372036854775808 + Int.fdiv (-1000000000) 1000000000 :=
  ⟨by decide, by decide, by decide, by decide, by decide, by decide⟩

/-- C10, amended: the duration is applied in whole seconds to an explicit issue
time. For every `iat` away from its default and every `dur` in nanoseconds, with
`exp` at its default: when `iat` and `iat` plus the floor of `dur / 10^9` are
Unix seconds that `time.Time` holds without overflow, the `exp` entry is `iat`
plus the floor of `dur / 10^9`, whatever the invocation time; and for every
`int64` value of `iat`, every duration in `[0, 1s)` gives `exp` equal to `iat`. -/
theorem duration_whole_seconds (now : Time) (args : Args)
    (hiat : (parseFlags now args).iat ≠ defaultIat now)
    (hexp : (parseFlags now args).exp = defaultExp now) :
    (buildClaims now (parseFlags now args)).get "iat"
      = some (Value.int (parseFlags now args).iat) ∧
    (representable (parseFlags now args).iat →
      representable ((parseFlags now args).iat
        + Int.fdiv (parseFlags now args).dur 1000000000) →
      (buildClaims now (parseFlags now args)).get "exp"
        = some (Value.int ((parseFlags now args).iat
            + Int.fdiv (parseFlags now args).dur 1000000000))) ∧
    (isInt64 (parseFlags now args).iat →
      0 ≤ (parseFlags now args).dur → (parseFlags now args).dur < Second →
      (buildClaims now (parseFlags now args)).get "exp"
        = some (Value.int (parseFlags now args).iat)) := by
  have hres := resolveExp_default now _ hexp
  rw [if_pos hiat] at hres
  refine ⟨?_, ?_, ?_⟩
  · rw [buildClaims_entries]; exact claims_get_iat _ _ _
  · intro hr hr2
    rw [buildClaims_entries, hres, claims_get_exp, timeUnix_Add_Unix _ _ hr hr2]
  · intro hT h0 h1
    rw [buildClaims_entries, hres, claims_get_exp, timeUnix_Add_subsecond _ _ hT h0 h1]

/-- C10, witness: issue time 1700000000 and a duration of 1.5 s give
`exp = 1700000001`. -/
theorem duration_whole_seconds_witness :
    (parseFlags sampleNow argsShortDur).iat ≠ defaultIat sampleNow ∧
    (parseFlags sampleNow argsShortDur).exp = defaultExp sampleNow ∧
    representable (parseFlags sampleNow argsShortDur).iat ∧
    representable ((parseFlags sampleNow argsShortDur).iat
      + Int.fdiv (parseFlags sampleNow argsShortDur).dur 1000000000) ∧
    (buildClaims sampleNow (parseFlags sampleNow argsShortDur)).get "exp"
      = some (Value.int ((parseFlags sampleNow argsShortDur).iat
          + Int.fdiv (parseFlags sampleNow argsShortDur).dur 1000000000)) ∧
    (parseFlags sampleNow argsShortDur).iat
      + Int.fdiv (parseFlags sampleNow argsShortDur).dur 1000000000 = 1700000001 :=
  ⟨by decide, by decide, by decide, by decide,
    (duration_whole_seconds sampleNow argsShortDur (by decide) (by decide)).2.1 (by decide)
      (by decide),
    by decide⟩

/-- An expiry given on the command line and different from the default expiry
is the `exp` entry of the claims built. -/
theorem explicit_expiresAt_kept (now : Time) (args : Args) (E : Int)
    (hE : args.exp = some E) (hne : E ≠ defaultExp now) :
    (buildClaims now (parseFlags now args)).get "exp" = some (Value.int E) := by
  have hF : (parseFlags now args).exp = E := by simp [parseFlags, hE]
  rw [buildClaims_entries, claims_get_exp, resolveExp_explicit now _ (by rw [hF]; exact hne),
    hF]

/-- C8: invoked at Unix second 1700003600 with issue time 1700000000 and the
expiry 1700004200 given on the command line, a value equal to the default
expiry, the run passes every check, recomputes `exp` and signs
`exp = 1700000600`, not the expiry given. -/
theorem explicit_default_expiresAt_recomputed :
    argsDefaultExpGiven.exp = some 1700004200 ∧
    main (sampleEnv 1700003600) sampleNow argsDefaultExpGiven
      = ⟨Outcome.printed "header.payload.signature",
          [Call.readFile "key.pem", Call.parsePEM [45, 45], Call.getSigningMethod "RS256",
            Call.valid ⟨[("iss", Value.int 1234), ("iat", Value.int 1700000000),
              ("exp", Value.int 1700000600)]⟩,
            Call.signedString "RS256"
              ⟨[("iss", Value.int 1234), ("iat", Value.int 1700000000),
                ("exp", Value.int 1700000600)]⟩ ()]⟩ ∧
    (1700000600 : Int) ≠ 1700004200 :=
  ⟨rfl, rfl, by decide⟩

/-- C2, counterexample: invoked at second 1700003600 with a zero duration, the
run passes every check and the validation and hands the signer claims with
`iat = exp = 1700003600`; the same window held as `float64` values also passes
`Valid` at that second. -/
theorem zero_duration_is_signed :
    main (sampleEnv 1700003600) sampleNow argsZeroDur
      = ⟨Outcome.printed "header.payload.signature",
          [Call.readFile "key.pem", Call.parsePEM [45, 45], Call.getSigningMethod "RS256",
            Call.valid ⟨[("iss", Value.int 1234), ("iat", Value.int 1700003600),
              ("exp", Value.int 1700003600)]⟩,
            Call.signedString "RS256"
              ⟨[("iss", Value.int 1234), ("iat", Value.int 1700003600),
                ("exp", Value.int 1700003600)]⟩ ()]⟩ ∧
    ¬ ((1700003600 : Int) < 1700003600) ∧
    (MapClaims.mk [("iss", Value.float64 1234), ("iat", Value.float64 1700003600),
      ("exp", Value.float64 1700003600)]).Valid 1700003600 = none :=
  ⟨rfl, by decide, by decide⟩

/-- C2, amended: for every run that hands claims to the signer, with `exp` left
at its default, a duration of at least one second, and `iat` and `iat` plus the
floor of `dur / 10^9` plus one Unix seconds that `time.Time` holds without
overflow, the claims have integer `iat` and `exp` entries with `iat < exp`. -/
theorem signed_window_positive {Key Method : Type} (env : Env Key Method) (now : Time)
    (args : Args) (m : Method) (c : MapClaims) (k : Key) (hnow : now.wellFormed)
    (hs : Call.signedString m c k ∈ (main env now args).calls)
    (hexp : (parseFlags now args).exp = defaultExp now)
    (hdur : Second ≤ (parseFlags now args).dur)
    (hr : representable (parseFlags now args).iat)
    (hr2 : representable ((parseFlags now args).iat
      + Int.fdiv (parseFlags now args).dur 1000000000 + 1)) :
    ∃ i e, c.get "iat" = some (Value.int i) ∧ c.get "exp" = some (Value.int e) ∧ i < e := by
  obtain ⟨hcl, -, -⟩ := main_signed_call env now args m c k hs
  subst hcl
  refine ⟨(parseFlags now args).iat, resolveExp now (parseFlags now args), ?_, ?_, ?_⟩
  · rw [buildClaims_entries]; exact claims_get_iat _ _ _
  · rw [buildClaims_entries]; exact claims_get_exp _ _ _
  · rw [resolveExp_default now _ hexp]
    unfold Second at hdur
    have hq : 1 ≤ (parseFlags now args).dur / 1000000000 := by omega
    rw [Int.fdiv_eq_ediv _ (by decide)] at hr2
    by_cases hi : (parseFlags now args).iat ≠ defaultIat now
    · have hr3 : representable ((parseFlags now args).iat
          + Int.fdiv (parseFlags now args).dur 1000000000) := by
        rw [Int.fdiv_eq_ediv _ (by decide)]
        unfold representable at hr hr2 ⊢
        omega
      rw [if_pos hi, timeUnix_Add_Unix _ _ hr hr3, Int.fdiv_eq_ediv _ (by decide)]
      omega
    · rw [if_neg hi]
      have hi2 : (parseFlags now args).iat = defaultIat now := not_not.mp hi
      rw [hi2] at hr hr2 ⊢
      unfold defaultIat at hr hr2 ⊢
      have hn := hnow
      obtain ⟨-, h0, h1⟩ := hn
      unfold Second at h1
      have hr3 : representable (now.Unix
          + (now.nsec + (parseFlags now args).dur) / 1000000000) := by
        unfold representable at hr hr2 ⊢
        omega
      rw [Time.Add_Unix now _ hnow hr hr3]
      omega

/-- C2, witness: issuer and key path only; the signed window is 600 seconds. -/
theorem signed_window_positive_witness :
    sampleNow.wellFormed ∧
    (parseFlags sampleNow argsDefaults).exp = defaultExp sampleNow ∧
    Second ≤ (parseFlags sampleNow argsDefaults).dur ∧
    representable (parseFlags sampleNow argsDefaults).iat ∧
    representable ((parseFlags sampleNow argsDefaults).iat
      + Int.fdiv (parseFlags sampleNow argsDefaults).dur 1000000000 + 1) ∧
    ∃ i e, (MapClaims.mk [("iss", Value.int 1234), ("iat", Value.int 1700003600),
        ("exp", Value.int 1700004200)]).get "iat" = some (Value.int i) ∧
      (MapClaims.mk [("iss", Value.int 1234), ("iat", Value.int 1700003600),
        ("exp", Value.int 1700004200)]).get "exp" = some (Value.int e) ∧ i < e :=
  ⟨by decide, by decide, by decide, by decide, by decide,
    signed_window_positive (sampleEnv 1700003600) sampleNow argsDefaults "RS256"
      ⟨[("iss", Value.int 1234), ("iat", Value.int 1700003600),
        ("exp", Value.int 1700004200)]⟩ () (by decide)
      (by
        have h : main (sampleEnv 1700003600) sampleNow argsDefaults
            = ⟨Outcome.printed "header.payload.signature",
                [Call.readFile "key.pem", Call.parsePEM [45, 45],
                  Call.getSigningMethod "RS256",
                  Call.valid ⟨[("iss", Value.int 1234), ("iat", Value.int 1700003600),
                    ("exp", Value.int 1700004200)]⟩,
                  Call.signedString "RS256"
                    ⟨[("iss", Value.int 1234), ("iat", Value.int 1700003600),
                      ("exp", Value.int 1700004200)]⟩ ()]⟩ := rfl
        rw [h]
        simp)
      (by decide) (by decide) (by decide) (by decide)⟩

/-- C9: at the input issuer 1234, issue time 2000, expiry 1000, with a key
that loads and a registered algorithm, `Valid` returns no error at any clock `t`
and the run signs and prints a token whose claims have `exp` before `iat`. -/
theorem inverted_window_is_signed (t : Int) :
    main (sampleEnv t) sampleNow argsInverted
      = ⟨Outcome.printed "header.payload.signature",
          [Call.readFile "key.pem", Call.parsePEM [45, 45], Call.getSigningMethod "RS256",
            Call.valid ⟨[("iss", Value.int 1234), ("iat", Value.int 2000),
              ("exp", Value.int 1000)]⟩,
            Call.signedString "RS256"
              ⟨[("iss", Value.int 1234), ("iat", Value.int 2000),
                ("exp", Value.int 1000)]⟩ ()]⟩ :=
  rfl

end Ghjwt
